import Mathlib

/-!
# Verification of the CodeChat graph-ingestion and multi-strategy retrieval core

Shallow embedding of `backend/src/ingest_structure.py` (the `IngestStructure`
class) and `backend/src/retrieval.py` (the multi-strategy retrieval engine),
together with theorems settling the specification claims about them.

Modelling conventions:
* Python floats are modelled as exact rationals (`ℚ`); the decimal literals
  `0.2`, `0.3`, ... of the source are the exact rationals `1/5`, `3/10`, ...
* The Neo4j graph store is modelled as explicit data (`Graph`), and the Cypher
  queries issued by the source are translated to Lean functions over it.
  Variable-length `-[:CHILD*]->` ancestry tests are modelled as boolean
  reachability (existence of a path of one or more CHILD edges).
* The external ANN vector indexes and the embedding service are oracles inside
  an environment record; exceptions raised by external calls are modelled by
  `Except` values / failure flags, matching the `try/except` structure of the
  source.
-/

namespace CodeChat

/-- Lowercase a string (model of Python `str.lower` / Cypher `toLower`),
written by structural recursion over the character list so that it reduces
in the kernel. -/
def lowerStr (s : String) : String := ⟨s.data.map Char.toLower⟩

/-- Holds when `pat` occurs as a contiguous substring of `hay` (model of Python `in` on
strings and Cypher `CONTAINS`). -/
def listIsInfix [DecidableEq α] (pat : List α) : List α → Bool
  | [] => pat.isEmpty
  | a :: l => pat.isPrefixOf (a :: l) || listIsInfix pat l

/-- String containment: `strContains hay pat` iff `pat` is a substring of `hay`. -/
def strContains (hay pat : String) : Bool := listIsInfix pat.data hay.data

/-- Split a character list into maximal whitespace-free words
(model of Python `str.split()` with no argument). -/
def wordsAux (cur : List Char) : List Char → List String
  | [] => if cur.isEmpty then [] else [⟨cur.reverse⟩]
  | c :: cs =>
    if c.isWhitespace then
      if cur.isEmpty then wordsAux [] cs else ⟨cur.reverse⟩ :: wordsAux [] cs
    else wordsAux (c :: cur) cs

/-- Python `s.split()`: whitespace-separated words, empties discarded. -/
def pyWords (s : String) : List String := wordsAux [] s.data

/-- Python truthiness of `query.strip()`: a string is blank iff every
character is whitespace (so `not query or not query.strip()` is
`isBlank query`). -/
def isBlank (s : String) : Bool := s.data.all (·.isWhitespace)

/-- Stable descending insertion: place `x` before the first element of
strictly smaller score, after any element of equal or larger score. -/
def insertDesc (score : α → ℚ) (x : α) : List α → List α
  | [] => [x]
  | y :: ys => if score y < score x then x :: y :: ys else y :: insertDesc score x ys

/-- Stable sort by `score` descending (model of Python
`list.sort(key=..., reverse=True)`, which is stable). -/
def sortDesc (score : α → ℚ) (l : List α) : List α :=
  l.foldl (fun acc x => insertDesc score x acc) []

theorem insertDesc_perm (score : α → ℚ) (x : α) (l : List α) :
    List.Perm (insertDesc score x l) (x :: l) := by
  induction l with
  | nil => simp [insertDesc]
  | cons y ys ih =>
    by_cases h : score y < score x
    · simp [insertDesc, h]
    · simp only [insertDesc, if_neg h]
      exact (ih.cons y).trans (List.Perm.swap x y ys)

theorem sortDesc_foldl_perm (score : α → ℚ) :
    ∀ (l acc : List α), List.Perm (l.foldl (fun acc x => insertDesc score x acc) acc) (acc ++ l) := by
  intro l
  induction l with
  | nil => simp
  | cons a l ih =>
    intro acc
    show List.Perm (l.foldl (fun acc x => insertDesc score x acc) (insertDesc score a acc)) _
    refine (ih (insertDesc score a acc)).trans ?_
    refine (((insertDesc_perm score a acc).append_right l).trans ?_)
    exact List.perm_middle.symm

theorem sortDesc_perm (score : α → ℚ) (l : List α) : List.Perm (sortDesc score l) l :=
  sortDesc_foldl_perm score l []

theorem mem_insertDesc (score : α → ℚ) (x : α) (l : List α) (z : α) :
    z ∈ insertDesc score x l ↔ z = x ∨ z ∈ l := by
  constructor
  · intro h
    have := (insertDesc_perm score x l).mem_iff.mp h
    simpa using this
  · intro h
    apply (insertDesc_perm score x l).mem_iff.mpr
    simpa using h

theorem insertDesc_sorted (score : α → ℚ) (x : α) (l : List α)
    (h : l.Pairwise (fun a b => score b ≤ score a)) :
    (insertDesc score x l).Pairwise (fun a b => score b ≤ score a) := by
  induction l with
  | nil => simp [insertDesc]
  | cons y ys ih =>
    rcases List.pairwise_cons.mp h with ⟨hy, hys⟩
    by_cases hlt : score y < score x
    · simp only [insertDesc, if_pos hlt]
      refine List.pairwise_cons.mpr ⟨?_, h⟩
      intro b hb
      rcases List.mem_cons.mp hb with rfl | hb
      · exact le_of_lt hlt
      · exact le_trans (hy b hb) (le_of_lt hlt)
    · simp only [insertDesc, if_neg hlt]
      refine List.pairwise_cons.mpr ⟨?_, ih hys⟩
      intro b hb
      rcases (mem_insertDesc score x ys b).mp hb with rfl | hb
      · exact le_of_not_lt hlt
      · exact hy b hb

theorem sortDesc_sorted (score : α → ℚ) (l : List α) :
    (sortDesc score l).Pairwise (fun a b => score b ≤ score a) := by
  suffices h : ∀ (l acc : List α), acc.Pairwise (fun a b => score b ≤ score a) →
      (l.foldl (fun acc x => insertDesc score x acc) acc).Pairwise
        (fun a b => score b ≤ score a) by
    exact h l [] (by simp)
  intro l
  induction l with
  | nil => intro acc h; simpa using h
  | cons a l ih =>
    intro acc h
    exact ih _ (insertDesc_sorted score a acc h)

/-!
## Ingestion model (`ingest_structure.py`)

A parse tree node is a dict `{type, name, lineno, code, parameters, children}`.
`PTree`/`PForest` are a mutual inductive so that the recursion of
`recursive_create` is structural.
-/

mutual

/-- One extractor parse-tree node (`node_data` in the source). -/
inductive PTree where
  | mk (ntype : String) (name : String) (lineno : Nat) (code : String)
       (parameters : List String) (parent : Option String) (children : PForest) : PTree

/-- A list of parse-tree children. -/
inductive PForest where
  | nil : PForest
  | cons : PTree → PForest → PForest

end

def PTree.ntype : PTree → String | .mk t _ _ _ _ _ _ => t
def PTree.name : PTree → String | .mk _ n _ _ _ _ _ => n
def PTree.children : PTree → PForest | .mk _ _ _ _ _ _ c => c

/-- The names of the direct children that carry a name
(`children_identifiers` in the source; every modelled child has a name). -/
def PForest.names : PForest → List String
  | .nil => []
  | .cons c f => c.name :: PForest.names f

/-- Model of `NODE_TYPE_MAP`: which lowercased `type` strings map to a persistable
node class, and the graph label of that class. -/
def NODE_TYPE_MAP : String → Option String
  | "file" => some "FileNode"
  | "class" => some "ClassNode"
  | "function" => some "FunctionNode"
  | "async_function" => some "FunctionNode"
  | _ => none

/-- A persisted node handle, as far as ingestion observes it. -/
structure INode where
  label : String
  name : String
deriving DecidableEq, Repr

/-- Observable events of one ingestion run, in program order. -/
inductive IEvent where
  /-- Event: `node.save()` succeeded for this (lowercased) type and name. -/
  | saved (ntype name : String)
  /-- Event: `node.save()` raised; the error is logged. -/
  | saveFailed (ntype name : String)
  /-- Event: `parent.children.connect(node)` succeeded. -/
  | connected (parent child : String)
  /-- Event: `parent.children.connect(node)` raised; the error is logged. -/
  | connectFailed (parent child : String)
  /-- Unknown `type`: the node (and its subtree) is skipped with a warning. -/
  | skippedUnknown (ntype : String)
  /-- Warning for a parentless non-file node at depth > 0. -/
  | noParentWarn (name : String)
deriving DecidableEq, Repr

/-- Failure injection for the external store: which `save` and `connect`
calls raise (keyed by the names involved, which identify the call sites in
the runs we examine). -/
structure IngestEnv where
  saveFails : String → Bool
  connectFails : String → String → Bool

mutual

/-- Model of `recursive_create(node_data, parent_node_obj, depth, is_file_node)`
(`ingest_structure.py` lines 87–148).  Returns the created node handle (or
`none`) together with the list of observable events, in order. -/
def recursive_create (env : IngestEnv) : PTree → Option INode → Nat → Bool →
    Option INode × List IEvent
  | .mk ntype name _lineno _code _params _parent children, parent_node_obj, depth, is_file_node =>
    let node_type := lowerStr ntype
    match NODE_TYPE_MAP node_type with
    | none => (none, [.skippedUnknown node_type])
    | some label =>
      -- `node = NodeClass(...); node.save()`
      if env.saveFails name then
        (none, [.saveFailed node_type name])
      else
        let node : INode := ⟨label, name⟩
        let connectEvents : List IEvent :=
          match parent_node_obj with
          | some p =>
            if env.connectFails p.name name then [.connectFailed p.name name]
            else [.connected p.name name]
          | none =>
            if !is_file_node && depth > 0 then [.noParentWarn name] else []
        let childEvents := recursive_create_children env children node depth
        (some node, .saved node_type name :: connectEvents ++ childEvents)

/-- The `for child in children: recursive_create(child, node, depth + 1, ...)`
loop: each child is processed with the freshly created node as parent. -/
def recursive_create_children (env : IngestEnv) : PForest → INode → Nat → List IEvent
  | .nil, _, _ => []
  | .cons c f, node, depth =>
    (recursive_create env c (some node) (depth + 1) false).2 ++
      recursive_create_children env f node depth

end

/-- The toplevel structure handed to `ingest` (`{file, code, children}`). -/
structure FileStructure where
  file : Option String
  code : Option String
  children : PForest

/-- Model of `IngestStructure.ingest(structure)` with the repository node
`repo_node` (possibly `none` when repository creation failed): builds the
synthetic file node dict and runs `recursive_create` on it.  We observe the
event list. -/
def ingest (env : IngestEnv) (repo_node : Option INode) (structure_ : FileStructure) :
    List IEvent :=
  let file_node_data : PTree :=
    .mk "file" (structure_.file.getD "unknown_file.py") 0 (structure_.code.getD "")
      [] none structure_.children
  (recursive_create env file_node_data repo_node 0 true).2

/-!
## Graph-store model

The Neo4j database: a list of labelled property nodes and the directed CHILD
edges between node ids.  `-[:CHILD*]->` ancestry tests are modelled by
reachability in one or more hops.
-/

/-- A stored graph node with the properties the queries project. -/
structure GNode where
  id : Nat
  label : String
  name : String
  summary : String
  code : String
  lineno : Nat
deriving DecidableEq, Repr

/-- The graph store: nodes plus directed CHILD edges (by node id). -/
structure Graph where
  nodes : List GNode
  child : List (Nat × Nat)
deriving Repr

/-- The labels of the three tracked node types. -/
def trackedLabels : List String := ["FileNode", "ClassNode", "FunctionNode"]

/-- CHILD successors of a node id. -/
def succs (g : Graph) (a : Nat) : List Nat :=
  (g.child.filter (fun e => e.1 = a)).map Prod.snd

/-- Saturating expansion of a frontier along CHILD edges (`fuel` bounds the
number of expansion rounds; `g.child.length + 1` rounds suffice). -/
def reachAux (g : Graph) : Nat → List Nat → List Nat
  | 0, front => front
  | fuel + 1, front =>
    let nxt := ((front.flatMap (succs g)).filter (fun x => !front.contains x)).dedup
    if nxt.isEmpty then front else reachAux g fuel (front ++ nxt)

/-- Node ids reachable from `a` by one or more CHILD edges (`-[:CHILD*]->`). -/
def reachPlus (g : Graph) (a : Nat) : List Nat :=
  reachAux g (g.child.length + 1) (succs g a).dedup

/-- Holds when `b` is reachable from `a` via one or more CHILD edges. -/
def reachableB (g : Graph) (a b : Nat) : Bool := (reachPlus g a).contains b

/-- Holds when a repository node with this name reaches the node id via one
or more CHILD edges. -/
def underRepoName (g : Graph) (repo : String) (nid : Nat) : Bool :=
  g.nodes.any (fun r => r.label = "RepositoryNode" && r.name = repo && reachableB g r.id nid)

/-- Holds when some repository node reaches the node id via one or more
CHILD edges. -/
def underAnyRepo (g : Graph) (nid : Nat) : Bool :=
  g.nodes.any (fun r => r.label = "RepositoryNode" && reachableB g r.id nid)

/-- Targets of CHILD paths of length 1 or 2 from `a`, one entry per path
(`-[:CHILD*1..2]->`). -/
def hops12 (g : Graph) (a : Nat) : List Nat :=
  succs g a ++ (succs g a).flatMap (succs g)

/-!
## Retrieval model (`retrieval.py`)
-/

/-- A row yielded by a vector-index query: the projected properties may be
null (`record.get(...) or`-defaults are applied by the caller). -/
structure RRow where
  name : String
  summary : Option String
  code : Option String
  lineno : Option Nat
  score : ℚ
deriving DecidableEq, Repr

/-- One retrieval result dict. -/
structure Result where
  rtype : String
  name : String
  summary : String
  code : String
  lineno : Nat
  score : ℚ
  search_type : String
  relation : Option String
deriving DecidableEq, Repr

/-- The deduplication key `(result['type'], result['name'])`. -/
def keyOf (r : Result) : String × String := (r.rtype, r.name)

/-- Model of `SUMMARY_INDEXES`: (index name, node type) pairs. -/
def SUMMARY_INDEXES : List (String × String) :=
  [("fileSummaryEmbeddingIndex", "FileNode"),
   ("classSummaryEmbeddingIndex", "ClassNode"),
   ("functionSummaryEmbeddingIndex", "FunctionNode")]

/-- Model of `CODE_INDEXES`: (index name, node type) pairs. -/
def CODE_INDEXES : List (String × String) :=
  [("fileCodeEmbeddingIndex", "FileNode"),
   ("classCodeEmbeddingIndex", "ClassNode"),
   ("functionCodeEmbeddingIndex", "FunctionNode")]

/-- Environment of external collaborators of the retrieval engine.
`vectorRows idx k emb repo` is the row set produced by
`db.index.vector.queryNodes(idx, k, emb)` (already filtered by the repository
ancestry `WHERE` clause when `repo` is given); the failure flags model the
`try/except` blocks of the source. -/
structure REnv where
  graph : Graph
  embed : String → Except String (List ℚ)
  vectorRows : String → Nat → List ℚ → Option String → List RRow
  indexFail : String → Bool
  sessionFail : Bool
  graphQueryFail : Bool
  relatedFail : Bool

/-- Lines 157–159: an out-of-range `top_k` is replaced by the default 10
before any index is queried. -/
def semanticEffectiveK (top_k : Nat) : Nat :=
  if top_k < 1 || top_k > 50 then 10 else top_k

/-- The rows obtained for one index: with a repository filter the Cypher asks
the index for `top_k * 2` candidates, orders by score descending and applies
`LIMIT top_k`; without one it asks for `top_k` candidates ordered descending. -/
def semanticRowsFor (env : REnv) (index_name : String) (top_k : Nat)
    (embedding : List ℚ) (repository : Option String) : List RRow :=
  match repository with
  | some repo =>
    (sortDesc RRow.score (env.vectorRows index_name (top_k * 2) embedding (some repo))).take top_k
  | none => sortDesc RRow.score (env.vectorRows index_name top_k embedding none)

/-- Model of `retrieve_semantic_results(query, top_k, use_code_index,
repository)` (`retrieval.py` lines 146–235). -/
def retrieve_semantic_results (env : REnv) (query : String) (top_k : Nat)
    (use_code_index : Bool) (repository : Option String) : List Result :=
  if isBlank query then []
  else
    let top_k := semanticEffectiveK top_k
    match env.embed query with
    | .error _ => []
    | .ok embedding =>
      if env.sessionFail then []
      else
        let indexes := if use_code_index then CODE_INDEXES else SUMMARY_INDEXES
        let all_results := indexes.flatMap (fun idx =>
          if env.indexFail idx.1 then []
          else
            (semanticRowsFor env idx.1 top_k embedding repository).map (fun r =>
              { rtype := idx.2, name := r.name, summary := r.summary.getD "",
                code := r.code.getD "", lineno := r.lineno.getD 0, score := r.score,
                search_type := if use_code_index then "code" else "summary",
                relation := none }))
        (sortDesc Result.score all_results).take top_k

/-- The keyword list: lowercase, split on whitespace, keep words longer
than 2 characters. -/
def keywordsOf (query : String) : List String :=
  (pyWords (lowerStr query)).filter (fun kw => kw.length > 2)

/-- The `WHERE` clause of the keyword queries: some keyword is contained in
the lowercased name or the lowercased summary. -/
def keywordMatch (keywords : List String) (n : GNode) : Bool :=
  keywords.any (fun kw => strContains (lowerStr n.name) kw) ||
  keywords.any (fun kw => strContains (lowerStr n.summary) kw)

/-- The rows of the keyword Cypher query: tracked nodes matching some keyword,
optionally restricted to a repository's descendants, `LIMIT limit`. -/
def graphMatchRows (g : Graph) (keywords : List String) (repository : Option String)
    (limit : Nat) : List GNode :=
  (g.nodes.filter (fun n => trackedLabels.contains n.label &&
      (match repository with | some repo => underRepoName g repo n.id | none => true) &&
      keywordMatch keywords n)).take limit

/-- Model of `retrieve_graph_based_results(query, top_k, repository)`
(`retrieval.py` lines 238–310). -/
def retrieve_graph_based_results (env : REnv) (query : String) (top_k : Nat)
    (repository : Option String) : List Result :=
  let keywords := keywordsOf query
  let all_results :=
    if env.graphQueryFail then []
    else
      (graphMatchRows env.graph keywords repository (top_k * 2)).map (fun n =>
        let matchCount := (keywords.filter (fun kw =>
          strContains (lowerStr n.name) kw || strContains (lowerStr n.summary) kw)).length
        let score : ℚ := if keywords.isEmpty then 0 else (matchCount : ℚ) / (keywords.length : ℚ)
        { rtype := n.label, name := n.name, summary := n.summary, code := n.code,
          lineno := n.lineno, score := score, search_type := "graph", relation := none })
  (sortDesc Result.score all_results).take top_k

/-- Build a `related` result from a graph node with a fixed score. -/
def mkRelated (n : GNode) (score : ℚ) (relation : String) : Result :=
  { rtype := n.label, name := n.name, summary := n.summary, code := n.code,
    lineno := n.lineno, score := score, search_type := "related", relation := some relation }

/-- Model of `retrieve_related_nodes(node_name, node_type, depth, repository)`
(`retrieval.py` lines 313–405).  The `node_type` and `depth` parameters are
accepted but unused by the source's Cypher, which matches any tracked label
and hardcodes 1..2 hops; children get fixed score 0.8, parents 0.7. -/
def retrieve_related_nodes (env : REnv) (node_name : String) (node_type : String)
    (repository : Option String) : List Result :=
  if env.relatedFail then []
  else
    let g := env.graph
    let inRepo : Nat → Bool := fun i =>
      match repository with | some repo => underRepoName g repo i | none => true
    let srcs := g.nodes.filter (fun n => trackedLabels.contains n.label &&
        n.name = node_name && inRepo n.id)
    let childRows := srcs.flatMap (fun n =>
      (hops12 g n.id).flatMap (fun cid =>
        (g.nodes.filter (fun c => c.id = cid)).map (fun c => mkRelated c 0.8 "child")))
    let parentRows :=
      (g.nodes.filter (fun p => trackedLabels.contains p.label && inRepo p.id)).flatMap
        (fun p => (hops12 g p.id).flatMap (fun tid =>
          (g.nodes.filter (fun n => trackedLabels.contains n.label &&
              n.name = node_name && n.id = tid)).map (fun _ => mkRelated p 0.7 "parent")))
    childRows ++ parentRows

/-- Strategy A accumulation: `all_results[key] = result;
all_results[key]['score'] = result['score'] * 1.0` (dict assignment keeps the
insertion position of an existing key). -/
def dictUpsertA (d : List Result) (r : Result) : List Result :=
  let r' := { r with score := r.score * 1.0 }
  if d.any (fun x => keyOf x = keyOf r) then
    d.map (fun x => if keyOf x = keyOf r then r' else x)
  else d ++ [r']

/-- Strategy B accumulation (lines 444–452): boost by `+ 0.3 × score` capped
at 1.0 and mark `hybrid` when the key is present, else append with weight 0.6. -/
def mergeB (d : List Result) (r : Result) : List Result :=
  if d.any (fun x => keyOf x = keyOf r) then
    d.map (fun x => if keyOf x = keyOf r then
      { x with score := min 1.0 (x.score + r.score * 0.3), search_type := "hybrid" } else x)
  else d ++ [{ r with score := r.score * 0.6 }]

/-- Strategy C accumulation (lines 457–464): boost by `+ 0.2 × score` capped
at 1.0 and mark `hybrid` when the key is present, else append with weight 0.4. -/
def mergeC (d : List Result) (r : Result) : List Result :=
  if d.any (fun x => keyOf x = keyOf r) then
    d.map (fun x => if keyOf x = keyOf r then
      { x with score := min 1.0 (x.score + r.score * 0.2), search_type := "hybrid" } else x)
  else d ++ [{ r with score := r.score * 0.4 }]

/-- The `all_results` dict after strategies A and B
(`retrieval.py` lines 430–452), in dict insertion order. -/
def fusedAB (env : REnv) (query : String) (top_k : Nat)
    (repository : Option String) : List Result :=
  let semantic_results := retrieve_semantic_results env query top_k false repository
  let d1 := semantic_results.foldl dictUpsertA []
  let graph_results := retrieve_graph_based_results env query top_k repository
  graph_results.foldl mergeB d1

/-- The `all_results` dict after strategies A, B and C
(`retrieval.py` lines 430–464): Strategy C feeds the same semantic retrieval
as Strategy A, with `use_code_index=True` and `top_k // 2`. -/
def fusedResults (env : REnv) (query : String) (top_k : Nat)
    (repository : Option String) : List Result :=
  let code_results := retrieve_semantic_results env query (top_k / 2) true repository
  code_results.foldl mergeC (fusedAB env query top_k repository)

/-- The `final_results` list before enrichment: fused values sorted by score
descending, truncated to `top_k` (lines 466–469). -/
def preEnrichment (env : REnv) (query : String) (top_k : Nat)
    (repository : Option String) : List Result :=
  (sortDesc Result.score (fusedResults env query top_k repository)).take top_k

/-- The `enriched_results` list (lines 472–478): every pre-enrichment result in order,
each of the first three followed by up to 2 of its related nodes. -/
def enrichedResults (env : REnv) (query : String) (top_k : Nat)
    (repository : Option String) : List Result :=
  (preEnrichment env query top_k repository).enum.flatMap (fun p =>
    p.2 :: (if p.1 < 3 then (retrieve_related_nodes env p.2.name p.2.rtype repository).take 2
            else []))

/-- The `seen`-set loop of lines 481–487: keep the first occurrence of each
`(type, name)` key. -/
def dedupAux (seen : List (String × String)) : List Result → List Result
  | [] => []
  | r :: rs => if keyOf r ∈ seen then dedupAux seen rs else r :: dedupAux (keyOf r :: seen) rs

/-- Final deduplication by `(type, name)`, keeping first occurrences. -/
def dedupByKey (l : List Result) : List Result := dedupAux [] l

/-- Model of `retrieve_top_k(query, top_k, use_multi_strategy, repository)`
(`retrieval.py` lines 408–493). -/
def retrieve_top_k (env : REnv) (query : String) (top_k : Nat)
    (use_multi_strategy : Bool) (repository : Option String) : List Result :=
  if !use_multi_strategy then retrieve_semantic_results env query top_k false repository
  else
    (sortDesc Result.score (dedupByKey (enrichedResults env query top_k repository))).take top_k

/-!
## Validation model (`ingest_structure.py` lines 169–223)
-/

/-- Model of the connected-count query: match every node reachable from the
named repository via CHILD edges and count the distinct matches. -/
def connectedCount (g : Graph) (repo_name : String) : Nat :=
  (g.nodes.filter (fun n => underRepoName g repo_name n.id)).length

/-- Model of the orphan-count query, which matches any node that is not a
RepositoryNode and has no repository ancestor: it counts every
non-repository node unreachable from all repository nodes, with no
restriction on its label. -/
def orphanedCount (g : Graph) : Nat :=
  (g.nodes.filter (fun n => !(n.label = "RepositoryNode") && !(underAnyRepo g n.id))).length

/-- Model of `validate_repository_structure` on the success path: the two
read-only counting queries; the function only reads the graph and returns
the pair, it produces no write. -/
def validate_repository_structure (g : Graph) (repo_name : String) : Nat × Nat :=
  (connectedCount g repo_name, orphanedCount g)

/-- Modelled from the spec's words (for comparison with the code): the number
of nodes of the tracked types (File/Class/Function) reachable from no
RepositoryNode at all. -/
def orphanedTrackedSpec (g : Graph) : Nat :=
  g.nodes.countP (fun n => trackedLabels.contains n.label && !(underAnyRepo g n.id))

/-- Modelled from the spec's words as amended by the code: the number of
non-repository nodes, of any label, reachable from no RepositoryNode. -/
def orphanedAllSpec (g : Graph) : Nat :=
  g.nodes.countP (fun n => !(n.label = "RepositoryNode") && !(underAnyRepo g n.id))

/-- Modelled from the spec's words: the number of distinct nodes reachable
from the named repository via one or more CHILD edges. -/
def connectedSpec (g : Graph) (repo_name : String) : Nat :=
  g.nodes.countP (fun n => g.nodes.any (fun r =>
    r.label = "RepositoryNode" && r.name = repo_name && reachableB g r.id n.id))

/-!
## Shared lemmas about deduplication and sorting
-/

theorem mem_dedupAux : ∀ (l : List Result) (seen : List (String × String)) (x : Result),
    x ∈ dedupAux seen l → x ∈ l := by
  intro l
  induction l with
  | nil => intro seen x h; simp [dedupAux] at h
  | cons r rs ih =>
    intro seen x h
    by_cases hs : keyOf r ∈ seen
    · simp only [dedupAux, if_pos hs] at h
      exact List.mem_cons_of_mem _ (ih _ _ h)
    · simp only [dedupAux, if_neg hs] at h
      rcases List.mem_cons.mp h with rfl | h
      · exact List.mem_cons_self _ _
      · exact List.mem_cons_of_mem _ (ih _ _ h)

theorem dedupAux_key_not_mem : ∀ (l : List Result) (seen : List (String × String)) (x : Result),
    x ∈ dedupAux seen l → keyOf x ∉ seen := by
  intro l
  induction l with
  | nil => intro seen x h; simp [dedupAux] at h
  | cons r rs ih =>
    intro seen x h
    by_cases hs : keyOf r ∈ seen
    · simp only [dedupAux, if_pos hs] at h
      exact ih _ _ h
    · simp only [dedupAux, if_neg hs] at h
      rcases List.mem_cons.mp h with rfl | h
      · exact hs
      · intro hmem
        exact ih _ _ h (List.mem_cons_of_mem _ hmem)

theorem dedupAux_pairwise : ∀ (l : List Result) (seen : List (String × String)),
    (dedupAux seen l).Pairwise (fun a b => keyOf a ≠ keyOf b) := by
  intro l
  induction l with
  | nil => intro seen; simp [dedupAux]
  | cons r rs ih =>
    intro seen
    by_cases hs : keyOf r ∈ seen
    · simpa only [dedupAux, if_pos hs] using ih seen
    · simp only [dedupAux, if_neg hs]
      refine List.pairwise_cons.mpr ⟨?_, ih _⟩
      intro b hb heq
      exact dedupAux_key_not_mem _ _ _ hb (heq ▸ List.mem_cons_self _ _)

theorem mem_dedupByKey (l : List Result) (x : Result) (h : x ∈ dedupByKey l) : x ∈ l :=
  mem_dedupAux l [] x h

theorem dedupByKey_pairwise (l : List Result) :
    (dedupByKey l).Pairwise (fun a b => keyOf a ≠ keyOf b) :=
  dedupAux_pairwise l []

theorem sortDesc_take_pairwise_key (l : List Result) (k : Nat)
    (h : l.Pairwise (fun a b => keyOf a ≠ keyOf b)) :
    ((sortDesc Result.score l).take k).Pairwise (fun a b => keyOf a ≠ keyOf b) := by
  have hsym : ∀ {x y : Result}, keyOf x ≠ keyOf y → keyOf y ≠ keyOf x :=
    fun hab e => hab e.symm
  have hperm : List.Perm (sortDesc Result.score l) l := sortDesc_perm Result.score l
  have hsorted : (sortDesc Result.score l).Pairwise (fun a b => keyOf a ≠ keyOf b) :=
    (hperm.pairwise_iff hsym).mpr h
  exact hsorted.sublist (List.take_sublist k _)

theorem mem_sortDesc (score : α → ℚ) (l : List α) (x : α) :
    x ∈ sortDesc score l ↔ x ∈ l :=
  (sortDesc_perm score l).mem_iff

/-!
## Shared lemmas about the fusion steps
-/

theorem dict_any_iff (d : List Result) (r : Result) :
    d.any (fun x => keyOf x = keyOf r) = true ↔ ∃ x ∈ d, keyOf x = keyOf r := by
  simp [List.any_eq_true]

/-- A result whose key is absent is appended with weight `0.6`. -/
theorem mergeB_new (d : List Result) (r : Result)
    (h : ¬ ∃ x ∈ d, keyOf x = keyOf r) :
    mergeB d r = d ++ [{ r with score := r.score * 0.6 }] := by
  have : d.any (fun x => keyOf x = keyOf r) = false := by
    rw [← Bool.not_eq_true, dict_any_iff]; exact h
  simp [mergeB, this]

/-- A result whose key is present boosts the existing entry by
`+ 0.3 × score`, capped at `1.0`, and marks it `hybrid`. -/
theorem mergeB_present (d : List Result) (r : Result)
    (h : ∃ x ∈ d, keyOf x = keyOf r) :
    mergeB d r = d.map (fun x => if keyOf x = keyOf r then
      { x with score := min 1.0 (x.score + r.score * 0.3), search_type := "hybrid" }
    else x) := by
  have : d.any (fun x => keyOf x = keyOf r) = true := (dict_any_iff d r).mpr h
  simp [mergeB, this]

/-- A result whose key is absent is appended with weight `0.4`. -/
theorem mergeC_new (d : List Result) (r : Result)
    (h : ¬ ∃ x ∈ d, keyOf x = keyOf r) :
    mergeC d r = d ++ [{ r with score := r.score * 0.4 }] := by
  have : d.any (fun x => keyOf x = keyOf r) = false := by
    rw [← Bool.not_eq_true, dict_any_iff]; exact h
  simp [mergeC, this]

/-- A result whose key is present boosts the existing entry by
`+ 0.2 × score`, capped at `1.0`, and marks it `hybrid`. -/
theorem mergeC_present (d : List Result) (r : Result)
    (h : ∃ x ∈ d, keyOf x = keyOf r) :
    mergeC d r = d.map (fun x => if keyOf x = keyOf r then
      { x with score := min 1.0 (x.score + r.score * 0.2), search_type := "hybrid" }
    else x) := by
  have : d.any (fun x => keyOf x = keyOf r) = true := (dict_any_iff d r).mpr h
  simp [mergeC, this]

theorem semanticEffectiveK_out (k : Nat) (h : k < 1 ∨ 50 < k) :
    semanticEffectiveK k = 10 := by
  simp only [semanticEffectiveK]
  split_ifs with hc
  · rfl
  · simp only [Bool.or_eq_true, decide_eq_true_eq] at hc
    omega

theorem semanticEffectiveK_in (k : Nat) (h1 : 1 ≤ k) (h2 : k ≤ 50) :
    semanticEffectiveK k = k := by
  simp only [semanticEffectiveK]
  split_ifs with hc
  · simp only [Bool.or_eq_true, decide_eq_true_eq] at hc
    omega
  · rfl

theorem semanticEffectiveK_idem (k : Nat) :
    semanticEffectiveK (semanticEffectiveK k) = semanticEffectiveK k := by
  by_cases h : 1 ≤ k ∧ k ≤ 50
  · rw [semanticEffectiveK_in k h.1 h.2, semanticEffectiveK_in k h.1 h.2]
  · have hout : k < 1 ∨ 50 < k := by omega
    rw [semanticEffectiveK_out k hout, semanticEffectiveK_in 10 (by omega) (by omega)]

/-- The retrieval body depends on the requested `top_k` only through
`semanticEffectiveK`. -/
theorem retrieve_semantic_results_effK (env : REnv) (query : String) (k : Nat)
    (use_code_index : Bool) (repository : Option String) :
    retrieve_semantic_results env query k use_code_index repository =
      retrieve_semantic_results env query (semanticEffectiveK k) use_code_index repository := by
  simp only [retrieve_semantic_results, semanticEffectiveK_idem]

theorem mergeB_ne_nil (d : List Result) (r : Result) : mergeB d r ≠ [] := by
  unfold mergeB
  by_cases h : d.any (fun x => keyOf x = keyOf r)
  · rcases d with _ | ⟨x, xs⟩
    · simp at h
    · simp [h]
  · simp [h]

theorem foldl_mergeB_ne_nil (l : List Result) (d : List Result) (h : d ≠ [] ∨ l ≠ []) :
    l.foldl mergeB d ≠ [] := by
  induction l generalizing d with
  | nil =>
    rcases h with h | h
    · simpa using h
    · simp at h
  | cons r rs ih =>
    show (rs.foldl mergeB (mergeB d r)) ≠ []
    exact ih (mergeB d r) (Or.inl (mergeB_ne_nil d r))

theorem sortDesc_eq_nil_iff (score : α → ℚ) (l : List α) :
    sortDesc score l = [] ↔ l = [] := by
  constructor
  · intro h
    have := (sortDesc_perm score l).length_eq
    rw [h] at this
    exact List.length_eq_zero.mp this.symm
  · intro h; subst h; rfl

theorem dedupByKey_ne_nil (l : List Result) (h : l ≠ []) : dedupByKey l ≠ [] := by
  rcases l with _ | ⟨r, rs⟩
  · exact absurd rfl h
  · show dedupAux [] (r :: rs) ≠ []
    have : keyOf r ∉ ([] : List (String × String)) := by simp
    simp [dedupAux, this]

theorem take_ne_nil_of_ne_nil (l : List α) (k : Nat) (hk : 1 ≤ k) (h : l ≠ []) :
    l.take k ≠ [] := by
  intro htake
  rcases List.take_eq_nil_iff.mp htake with h1 | h1
  · omega
  · exact h h1

theorem enrichedResults_ne_nil (env : REnv) (query : String) (k : Nat)
    (repository : Option String) (h : preEnrichment env query k repository ≠ []) :
    enrichedResults env query k repository ≠ [] := by
  unfold enrichedResults
  rcases hpre : preEnrichment env query k repository with _ | ⟨x, xs⟩
  · exact absurd hpre h
  · simp [hpre, List.enum_cons]

/-!
## Claim theorems
-/

/-- C2 claim theorem. For every query, every `k` and every optional repository filter,
`retrieve_top_k` in multi-strategy mode returns at most `k` entries: the final
truncation `deduplicated[:top_k]` bounds the returned list, so neighbor
enrichment can never make the final result exceed `k`. -/
theorem C2_bounded_output (env : REnv) (query : String) (k : Nat)
    (repository : Option String) :
    (retrieve_top_k env query k true repository).length ≤ k := by
  show ((sortDesc Result.score (dedupByKey (enrichedResults env query k repository))).take
      k).length ≤ k
  rw [List.length_take]
  exact min_le_left _ _

/-- C3 claim theorem. In multi-strategy mode the returned list contains no two entries
with the same `(type, name)` pair: the final `seen`-set deduplication makes
keys pairwise distinct, and sorting and truncation preserve that. -/
theorem C3_dedup_key (env : REnv) (query : String) (k : Nat)
    (repository : Option String) :
    (retrieve_top_k env query k true repository).Pairwise
      (fun a b => keyOf a ≠ keyOf b) := by
  show ((sortDesc Result.score (dedupByKey (enrichedResults env query k repository))).take
      k).Pairwise (fun a b => keyOf a ≠ keyOf b)
  exact sortDesc_take_pairwise_key _ k (dedupByKey_pairwise _)

/-- The empty graph store. -/
def emptyGraph : Graph := ⟨[], []⟩

/-- A fixed sample result used to instantiate fusion-step lemmas. -/
def sampleResult : Result :=
  { rtype := "FileNode", name := "c", summary := "sc", code := "cc", lineno := 3,
    score := 1/2, search_type := "code", relation := none }

/-- Environment for the Strategy C request-size experiment: the code index
answers (with one row of raw score `1/2`) only when asked for exactly 10
candidates, so any result it contributes witnesses that 10 was requested. -/
def envReq10 : REnv :=
  { graph := emptyGraph
    embed := fun _ => .ok [1]
    vectorRows := fun idx k _ _ =>
      if idx = "fileCodeEmbeddingIndex" ∧ k = 10 then
        [⟨"c", some "sc", some "cc", some 3, 1/2⟩]
      else []
    indexFail := fun _ => false
    sessionFail := false
    graphQueryFail := false
    relatedFail := false }

/-- C4 counterexample. The claim says Strategy C requests `k/2` results
for every `k`.  At `k = 1` the passed value `1 / 2 = 0` is replaced by the
default 10 before any index is queried: against an environment whose code
index answers only requests of size exactly 10, `retrieve_top_k` with `k = 1`
still returns a Strategy C contribution (raw score `1/2`, weighted by 0.4 to
`1/5`), which is impossible if only `k/2 = 0` candidates had been requested. -/
theorem C4_counterexample :
    (1 : Nat) / 2 = 0 ∧ semanticEffectiveK (1 / 2) = 10 ∧
    retrieve_top_k envReq10 "qq" 1 true none =
      [{ rtype := "FileNode", name := "c", summary := "sc", code := "cc", lineno := 3,
         score := 1/5, search_type := "code", relation := none }] := by
  refine ⟨rfl, rfl, ?_⟩
  with_unfolding_all decide

/-- C4 amended claim theorem. Strategy C runs the same semantic-search mechanics as
Strategy A against the code-embedding indexes, passing `k / 2` as the
requested size; that request is used as-is only when `1 ≤ k/2 ≤ 50` and is
replaced by the default 10 otherwise (in particular for `k ≤ 1`).  A node new
to the result set receives 0.4 times its raw score; a node already present
has its score boosted by 0.2 times its Strategy C score, capped at 1.0, and
is marked `hybrid`. -/
theorem C4_amended :
    (∀ (env : REnv) (query : String) (k : Nat) (repository : Option String),
      fusedResults env query k repository =
        (retrieve_semantic_results env query (k / 2) true repository).foldl mergeC
          (fusedAB env query k repository)) ∧
    (∀ k : Nat, 1 ≤ k / 2 → k / 2 ≤ 50 → semanticEffectiveK (k / 2) = k / 2) ∧
    (∀ k : Nat, (k / 2 < 1 ∨ 50 < k / 2) → semanticEffectiveK (k / 2) = 10) ∧
    (∀ (d : List Result) (r : Result), ¬(∃ x ∈ d, keyOf x = keyOf r) →
      mergeC d r = d ++ [{ r with score := r.score * 0.4 }]) ∧
    (∀ (d : List Result) (r : Result), (∃ x ∈ d, keyOf x = keyOf r) →
      mergeC d r = d.map (fun x => if keyOf x = keyOf r then
        { x with score := min 1.0 (x.score + r.score * 0.2), search_type := "hybrid" }
      else x)) :=
  ⟨fun _ _ _ _ => rfl,
   fun k h1 h2 => semanticEffectiveK_in (k / 2) h1 h2,
   fun k h => semanticEffectiveK_out (k / 2) h,
   mergeC_new, mergeC_present⟩

/-- Closed instantiation of `C4_amended` (hypotheses discharged at `k = 1`,
`k = 4`, the empty dict and a singleton dict). -/
theorem C4_amended_witness :
    (fusedResults envReq10 "qq" 1 none =
      (retrieve_semantic_results envReq10 "qq" (1 / 2) true none).foldl mergeC
        (fusedAB envReq10 "qq" 1 none)) ∧
    (1 ≤ 4 / 2 ∧ 4 / 2 ≤ 50 ∧ semanticEffectiveK (4 / 2) = 4 / 2) ∧
    ((1 / 2 < 1 ∨ 50 < (1 : Nat) / 2) ∧ semanticEffectiveK (1 / 2) = 10) ∧
    (¬(∃ x ∈ ([] : List Result), keyOf x = keyOf sampleResult) ∧
      mergeC [] sampleResult = [] ++ [{ sampleResult with score := sampleResult.score * 0.4 }]) ∧
    ((∃ x ∈ [sampleResult], keyOf x = keyOf sampleResult) ∧
      mergeC [sampleResult] sampleResult = [sampleResult].map (fun x =>
        if keyOf x = keyOf sampleResult then
          { x with
            score := min 1.0 (x.score + sampleResult.score * 0.2)
            search_type := "hybrid" }
        else x)) :=
  ⟨C4_amended.1 envReq10 "qq" 1 none,
   ⟨by decide, by decide, C4_amended.2.1 4 (by decide) (by decide)⟩,
   ⟨Or.inl (by decide), C4_amended.2.2.1 1 (Or.inl (by decide))⟩,
   ⟨by simp, C4_amended.2.2.2.1 [] sampleResult (by simp)⟩,
   ⟨⟨sampleResult, by simp⟩, C4_amended.2.2.2.2 [sampleResult] sampleResult
      ⟨sampleResult, by simp⟩⟩⟩

/-- C10 claim theorem. An out-of-range `top_k` (`top_k < 1` or `top_k > 50`) passed to
`retrieve_semantic_results` is silently replaced by 10 before any index is
queried — the call behaves exactly like a call with `top_k = 10` against
every environment — and in `retrieve_top_k` with `k = 1` the Strategy C
request `1 / 2 = 0` is therefore served as a request for 10 code-search
candidates. -/
theorem C10_topk_clamp :
    (∀ k : Nat, (k < 1 ∨ 50 < k) → semanticEffectiveK k = 10) ∧
    (∀ (env : REnv) (query : String) (use_code_index : Bool)
       (repository : Option String) (k : Nat), (k < 1 ∨ 50 < k) →
      retrieve_semantic_results env query k use_code_index repository =
        retrieve_semantic_results env query 10 use_code_index repository) ∧
    (∀ (env : REnv) (query : String) (repository : Option String),
      fusedResults env query 1 repository =
        (retrieve_semantic_results env query 10 true repository).foldl mergeC
          (fusedAB env query 1 repository)) := by
  have hbehave : ∀ (env : REnv) (query : String) (use_code_index : Bool)
      (repository : Option String) (k : Nat), (k < 1 ∨ 50 < k) →
      retrieve_semantic_results env query k use_code_index repository =
        retrieve_semantic_results env query 10 use_code_index repository := by
    intro env query uc repo k hk
    rw [retrieve_semantic_results_effK env query k uc repo, semanticEffectiveK_out k hk,
      retrieve_semantic_results_effK env query 10 uc repo,
      semanticEffectiveK_in 10 (by omega) (by omega)]
  refine ⟨fun k hk => semanticEffectiveK_out k hk, hbehave, ?_⟩
  intro env query repo
  show (retrieve_semantic_results env query (1 / 2) true repo).foldl mergeC
      (fusedAB env query 1 repo) = _
  rw [hbehave env query true repo (1 / 2) (Or.inl (by decide))]

/-- Closed instantiation of `C10_topk_clamp` at `k = 0` (the value Strategy C
passes when `retrieve_top_k` is called with `k = 1`). -/
theorem C10_topk_clamp_witness :
    ((0 : Nat) < 1 ∨ 50 < (0 : Nat)) ∧ semanticEffectiveK 0 = 10 ∧
    retrieve_semantic_results envReq10 "qq" 0 true none =
      retrieve_semantic_results envReq10 "qq" 10 true none ∧
    fusedResults envReq10 "qq" 1 none =
      (retrieve_semantic_results envReq10 "qq" 10 true none).foldl mergeC
        (fusedAB envReq10 "qq" 1 none) :=
  ⟨Or.inl (by decide),
   C10_topk_clamp.1 0 (Or.inl (by decide)),
   C10_topk_clamp.2.1 envReq10 "qq" true none 0 (Or.inl (by decide)),
   C10_topk_clamp.2.2 envReq10 "qq" none⟩

/-- C9 claim theorem. If the embedding service raises, both semantic strategies (A, with
the summary indexes, and C, with the code indexes at the `k/2` request) return
the empty contribution, the fused dict is exactly the Strategy B keyword
results folded into an empty dict, and the overall multi-strategy call still
returns a value built from Strategy B alone — nonempty whenever `k ≥ 1` and
Strategy B found anything.  The model is a total function, so no exception
propagates out of `retrieve_top_k` on this path. -/
theorem C9_embedding_failure (env : REnv) (query : String) (k : Nat)
    (repository : Option String) (err : String) (h : env.embed query = .error err) :
    retrieve_semantic_results env query k false repository = [] ∧
    retrieve_semantic_results env query (k / 2) true repository = [] ∧
    fusedResults env query k repository =
      (retrieve_graph_based_results env query k repository).foldl mergeB [] ∧
    (1 ≤ k → retrieve_graph_based_results env query k repository ≠ [] →
      retrieve_top_k env query k true repository ≠ []) := by
  have hsem : ∀ (kk : Nat) (uc : Bool),
      retrieve_semantic_results env query kk uc repository = [] := by
    intro kk uc
    unfold retrieve_semantic_results
    by_cases hb : isBlank query
    · simp [hb]
    · simp [hb, h]
  have hfused : fusedResults env query k repository =
      (retrieve_graph_based_results env query k repository).foldl mergeB [] := by
    unfold fusedResults fusedAB
    rw [hsem (k / 2) true, hsem k false]
    simp
  refine ⟨hsem k false, hsem (k / 2) true, hfused, ?_⟩
  intro hk hgr
  have hfne : fusedResults env query k repository ≠ [] := by
    rw [hfused]
    exact foldl_mergeB_ne_nil _ [] (Or.inr hgr)
  have hpre : preEnrichment env query k repository ≠ [] := by
    unfold preEnrichment
    refine take_ne_nil_of_ne_nil _ k hk ?_
    rw [Ne, sortDesc_eq_nil_iff]
    exact hfne
  have henr : enrichedResults env query k repository ≠ [] :=
    enrichedResults_ne_nil env query k repository hpre
  show (sortDesc Result.score (dedupByKey (enrichedResults env query k repository))).take
      k ≠ []
  refine take_ne_nil_of_ne_nil _ k hk ?_
  rw [Ne, sortDesc_eq_nil_iff]
  exact dedupByKey_ne_nil _ henr

/-- Environment for the embedding-failure scenario: the embedding service
raises, but the graph store holds a `FunctionNode` named `foo` that the
keyword strategy can find. -/
def envEmbedDown : REnv :=
  { graph := ⟨[⟨0, "FunctionNode", "foo", "computes foo", "def foo(): pass", 3⟩], []⟩
    embed := fun _ => .error "embedding service unavailable"
    vectorRows := fun _ _ _ _ => [⟨"foo", some "computes foo", none, some 3, 1/2⟩]
    indexFail := fun _ => false
    sessionFail := false
    graphQueryFail := false
    relatedFail := false }

/-- Closed instantiation of `C9_embedding_failure`: with the embedding
service down, both semantic strategies contribute nothing even though the
indexes hold data, Strategy B still finds `foo`, and the overall call returns
a nonempty list. -/
theorem C9_embedding_failure_witness :
    envEmbedDown.embed "foo" = .error "embedding service unavailable" ∧
    (retrieve_semantic_results envEmbedDown "foo" 5 false none = [] ∧
      retrieve_semantic_results envEmbedDown "foo" (5 / 2) true none = [] ∧
      fusedResults envEmbedDown "foo" 5 none =
        (retrieve_graph_based_results envEmbedDown "foo" 5 none).foldl mergeB [] ∧
      (1 ≤ 5 → retrieve_graph_based_results envEmbedDown "foo" 5 none ≠ [] →
        retrieve_top_k envEmbedDown "foo" 5 true none ≠ [])) ∧
    retrieve_graph_based_results envEmbedDown "foo" 5 none ≠ [] ∧
    retrieve_top_k envEmbedDown "foo" 5 true none ≠ [] := by
  have h : envEmbedDown.embed "foo" = .error "embedding service unavailable" := rfl
  have hmain := C9_embedding_failure envEmbedDown "foo" 5 none
    "embedding service unavailable" h
  have hgr : retrieve_graph_based_results envEmbedDown "foo" 5 none ≠ [] := by
    with_unfolding_all decide
  exact ⟨h, hmain, hgr, hmain.2.2.2 (by omega) hgr⟩

/-- The dedup loop keeps, for each key present in the list, exactly its
first occurrence (the one `find?` returns). -/
theorem dedupAux_keeps_first : ∀ (l : List Result) (seen : List (String × String))
    (x : Result), x ∈ l → keyOf x ∉ seen →
    ∃ y, l.find? (fun z => keyOf z = keyOf x) = some y ∧ y ∈ dedupAux seen l := by
  intro l
  induction l with
  | nil => intro seen x hx; simp at hx
  | cons r rs ih =>
    intro seen x hx hseen
    by_cases hk : keyOf r = keyOf x
    · refine ⟨r, ?_, ?_⟩
      · rw [List.find?_cons_of_pos]
        simp [hk]
      · have : keyOf r ∉ seen := by rw [hk]; exact hseen
        simp only [dedupAux, if_neg this]
        exact List.mem_cons_self _ _
    · have hxrs : x ∈ rs := by
        rcases List.mem_cons.mp hx with rfl | hmem
        · exact absurd rfl hk
        · exact hmem
      by_cases hr : keyOf r ∈ seen
      · rcases ih seen x hxrs hseen with ⟨y, hy1, hy2⟩
        refine ⟨y, ?_, ?_⟩
        · rw [List.find?_cons_of_neg]
          · exact hy1
          · simp [hk]
        · simp only [dedupAux, if_pos hr]
          exact hy2
      · have hseen' : keyOf x ∉ keyOf r :: seen := by
          intro hmem
          rcases List.mem_cons.mp hmem with heq | hmem
          · exact hk heq.symm
          · exact hseen hmem
        rcases ih (keyOf r :: seen) x hxrs hseen' with ⟨y, hy1, hy2⟩
        refine ⟨y, ?_, ?_⟩
        · rw [List.find?_cons_of_neg]
          · exact hy1
          · simp [hk]
        · simp only [dedupAux, if_neg hr]
          exact List.mem_cons_of_mem _ hy2

/-- Environment for the enrichment-order scenario: summary search surfaces a
file `a` (score 0.95) and a function `b` (score 0.9), and `b` is a CHILD of
`a` in the graph, so enriching `a` re-introduces `b` as a related node with
fixed score 0.8 *before* the fused occurrence of `b` with score 0.9. -/
def envNbr : REnv :=
  { graph := { nodes := [⟨0, "FileNode", "a", "sa", "ca", 1⟩,
                         ⟨1, "FunctionNode", "b", "sb", "cb", 2⟩],
               child := [(0, 1)] }
    embed := fun _ => .ok [1]
    vectorRows := fun idx _ _ _ =>
      if idx = "fileSummaryEmbeddingIndex" then [⟨"a", some "sa", some "ca", some 1, 19/20⟩]
      else if idx = "functionSummaryEmbeddingIndex" then
        [⟨"b", some "sb", some "cb", some 2, 9/10⟩]
      else []
    indexFail := fun _ => false
    sessionFail := false
    graphQueryFail := false
    relatedFail := false }

/-- C5 counterexample. In the final assembly the first kept occurrence
of a `(type, name)` pair is *not* always the highest-scored occurrence of
that pair in the enriched list: in `envNbr` with `k = 5` the enriched list is
`[a@0.95, b@0.8 (related child of a), b@0.9 (fused), a@0.7 (related parent)]`,
so deduplication keeps `b` at score `0.8` although an occurrence with score
`0.9` exists, and the returned list carries `b` at `4/5`, not `9/10`. -/
theorem C5_counterexample :
    (¬ ∀ r ∈ dedupByKey (enrichedResults envNbr "qq" 5 none),
        ∀ x ∈ enrichedResults envNbr "qq" 5 none,
          keyOf x = keyOf r → x.score ≤ r.score) ∧
    (enrichedResults envNbr "qq" 5 none).map (fun r => (keyOf r, r.score)) =
      [(("FileNode", "a"), 19/20), (("FunctionNode", "b"), 4/5),
       (("FunctionNode", "b"), 9/10), (("FileNode", "a"), 7/10)] ∧
    (retrieve_top_k envNbr "qq" 5 true none).map (fun r => (keyOf r, r.score)) =
      [(("FileNode", "a"), 19/20), (("FunctionNode", "b"), 4/5)] := by
  refine ⟨?_, ?_, ?_⟩ <;> with_unfolding_all decide

/-- C5 amended claim theorem. The final assembly deduplicates the enriched list by
`(type, name)` keeping the first occurrence encountered (which need not be
the highest-scored occurrence of that pair in the enriched list), then sorts
by score descending and truncates to `k`; that value is returned. -/
theorem C5_amended (env : REnv) (query : String) (k : Nat)
    (repository : Option String) :
    (retrieve_top_k env query k true repository =
      (sortDesc Result.score (dedupByKey (enrichedResults env query k repository))).take k) ∧
    (∀ y ∈ dedupByKey (enrichedResults env query k repository),
      y ∈ enrichedResults env query k repository) ∧
    (dedupByKey (enrichedResults env query k repository)).Pairwise
      (fun a b => keyOf a ≠ keyOf b) ∧
    (∀ x ∈ enrichedResults env query k repository, ∃ y,
      (enrichedResults env query k repository).find? (fun z => keyOf z = keyOf x) = some y ∧
      y ∈ dedupByKey (enrichedResults env query k repository)) ∧
    (retrieve_top_k env query k true repository).Pairwise
      (fun a b => Result.score b ≤ Result.score a) := by
  refine ⟨rfl, fun y hy => mem_dedupByKey _ y hy, dedupByKey_pairwise _, ?_, ?_⟩
  · intro x hx
    exact dedupAux_keeps_first _ [] x hx (by simp)
  · show ((sortDesc Result.score (dedupByKey (enrichedResults env query k repository))).take
        k).Pairwise (fun a b => Result.score b ≤ Result.score a)
    exact (sortDesc_sorted Result.score _).sublist (List.take_sublist k _)

/-- Closed instantiation of `C5_amended` at the `envNbr` scenario. -/
theorem C5_amended_witness :
    (retrieve_top_k envNbr "qq" 5 true none =
      (sortDesc Result.score (dedupByKey (enrichedResults envNbr "qq" 5 none))).take 5) ∧
    (∀ y ∈ dedupByKey (enrichedResults envNbr "qq" 5 none),
      y ∈ enrichedResults envNbr "qq" 5 none) ∧
    (dedupByKey (enrichedResults envNbr "qq" 5 none)).Pairwise
      (fun a b => keyOf a ≠ keyOf b) ∧
    (∀ x ∈ enrichedResults envNbr "qq" 5 none, ∃ y,
      (enrichedResults envNbr "qq" 5 none).find? (fun z => keyOf z = keyOf x) = some y ∧
      y ∈ dedupByKey (enrichedResults envNbr "qq" 5 none)) ∧
    (retrieve_top_k envNbr "qq" 5 true none).Pairwise
      (fun a b => Result.score b ≤ Result.score a) :=
  C5_amended envNbr "qq" 5 none

/-- Failure injection that makes `node.save()` raise exactly for the node
named `bad`. -/
def envSaveBad : IngestEnv := ⟨fun n => n = "bad", fun _ _ => false⟩

/-- A file with two children: a class `bad` (whose save will fail) holding a
nested function `inner`, and a sibling function `ok`. -/
def treeSaveBad : FileStructure :=
  ⟨some "f.py", some "",
   .cons (.mk "class" "bad" 1 "class bad: ..." [] (some "f.py")
       (.cons (.mk "function" "inner" 2 "def inner(): ..." [] (some "bad") .nil) .nil))
     (.cons (.mk "function" "ok" 5 "def ok(): ..." [] (some "f.py") .nil) .nil)⟩

/-- An event records an attempt to persist the node of this name. -/
def isSaveAttempt (name : String) : IEvent → Bool
  | .saved _ n => n = name
  | .saveFailed _ n => n = name
  | _ => false

/-- C1 counterexample. When saving the class `bad` fails, its child
`inner` is *not* attempted: `recursive_create` returns before the loop over
children (lines 124–126 of `ingest_structure.py`), so the run's event list
holds no save attempt for `inner` at all, while the sibling `ok` is still
persisted and connected.  This contradicts the claim that the children of a
failed node are still attempted. -/
theorem C1_counterexample :
    ingest envSaveBad (some ⟨"RepositoryNode", "repo"⟩) treeSaveBad =
      [.saved "file" "f.py", .connected "repo" "f.py", .saveFailed "class" "bad",
       .saved "function" "ok", .connected "f.py" "ok"] ∧
    (ingest envSaveBad (some ⟨"RepositoryNode", "repo"⟩) treeSaveBad).all
      (fun e => !(isSaveAttempt "inner" e)) = true ∧
    IEvent.saveFailed "class" "bad" ∈
      ingest envSaveBad (some ⟨"RepositoryNode", "repo"⟩) treeSaveBad ∧
    IEvent.saved "function" "ok" ∈
      ingest envSaveBad (some ⟨"RepositoryNode", "repo"⟩) treeSaveBad := by
  refine ⟨?_, ?_, ?_, ?_⟩ <;> with_unfolding_all decide

/-- C1 amended claim theorem. When persisting one node fails, the failure is logged
and that node *and its entire subtree* are skipped — the run produces only
the `saveFailed` event and never attempts the node's children; ingestion of
the rest of the tree continues (each remaining sibling is processed
regardless of the outcome of the previous one) and nothing is rolled back. -/
theorem C1_amended :
    (∀ (env : IngestEnv) (ntype name : String) (lineno : Nat) (code : String)
       (params : List String) (parent : Option String) (children : PForest)
       (parent_node : Option INode) (depth : Nat) (is_file : Bool) (label : String),
      NODE_TYPE_MAP (lowerStr ntype) = some label → env.saveFails name = true →
      recursive_create env (.mk ntype name lineno code params parent children)
        parent_node depth is_file = (none, [.saveFailed (lowerStr ntype) name])) ∧
    (∀ (env : IngestEnv) (c : PTree) (f : PForest) (node : INode) (depth : Nat),
      recursive_create_children env (.cons c f) node depth =
        (recursive_create env c (some node) (depth + 1) false).2 ++
          recursive_create_children env f node depth) := by
  constructor
  · intro env ntype name lineno code params parent children parent_node depth is_file
      label hmap hsave
    simp only [recursive_create, hmap, hsave]
    simp
  · intro env c f node depth
    rfl

/-- Closed instantiation of `C1_amended`: the failing class `bad` of
`treeSaveBad` yields only its `saveFailed` event (no child attempted), and
the sibling list is processed element by element. -/
theorem C1_amended_witness :
    (NODE_TYPE_MAP (lowerStr "class") = some "ClassNode" ∧
     envSaveBad.saveFails "bad" = true ∧
     recursive_create envSaveBad
        (.mk "class" "bad" 1 "class bad: ..." [] (some "f.py")
          (.cons (.mk "function" "inner" 2 "def inner(): ..." [] (some "bad") .nil) .nil))
        (some ⟨"FileNode", "f.py"⟩) 1 false = (none, [.saveFailed "class" "bad"])) ∧
    recursive_create_children envSaveBad
        (.cons (.mk "function" "ok" 5 "def ok(): ..." [] (some "f.py") .nil) .nil)
        ⟨"FileNode", "f.py"⟩ 1 =
      (recursive_create envSaveBad (.mk "function" "ok" 5 "def ok(): ..." [] (some "f.py") .nil)
          (some ⟨"FileNode", "f.py"⟩) 2 false).2 ++
        recursive_create_children envSaveBad .nil ⟨"FileNode", "f.py"⟩ 1 :=
  ⟨⟨by with_unfolding_all decide, by with_unfolding_all decide,
    C1_amended.1 envSaveBad "class" "bad" 1 "class bad: ..." [] (some "f.py")
      (.cons (.mk "function" "inner" 2 "def inner(): ..." [] (some "bad") .nil) .nil)
      (some ⟨"FileNode", "f.py"⟩) 1 false "ClassNode"
      (by with_unfolding_all decide) (by with_unfolding_all decide)⟩,
   C1_amended.2 envSaveBad _ _ _ _⟩

/-- A graph holding a single node of an untracked label, connected to no
repository. -/
def gGhost : Graph := ⟨[⟨0, "GhostNode", "g", "", "", 0⟩], []⟩

/-- C6 counterexample. The orphan-counting query of
`validate_repository_structure` has no label restriction: on a graph whose
only node carries the untracked label `GhostNode`, the code reports one
orphan, whereas the count of orphaned *tracked-type* nodes the claim
describes is zero. -/
theorem C6_counterexample :
    (validate_repository_structure gGhost "demo").2 = 1 ∧
    orphanedTrackedSpec gGhost = 0 ∧
    (validate_repository_structure gGhost "demo").2 ≠ orphanedTrackedSpec gGhost := by
  refine ⟨?_, ?_, ?_⟩ <;> with_unfolding_all decide

/-- C6 amended claim theorem. `validateStructure` returns the pair whose first
component counts the distinct nodes reachable from the named repository node
via one or more CHILD edges, and whose second component counts *every*
non-repository node — of any label — reachable from no RepositoryNode at all;
on graphs whose non-repository nodes all carry tracked labels this equals the
tracked-type orphan count of the claim.  The operation is a pure pair of
read-only counting queries and never mutates the graph. -/
theorem C6_amended (g : Graph) (repo_name : String) :
    validate_repository_structure g repo_name =
      (connectedSpec g repo_name, orphanedAllSpec g) ∧
    ((∀ n ∈ g.nodes, n.label = "RepositoryNode" ∨ n.label ∈ trackedLabels) →
      (validate_repository_structure g repo_name).2 = orphanedTrackedSpec g) := by
  constructor
  · show (connectedCount g repo_name, orphanedCount g) =
      (connectedSpec g repo_name, orphanedAllSpec g)
    unfold connectedCount orphanedCount connectedSpec orphanedAllSpec underRepoName
    rw [List.countP_eq_length_filter, List.countP_eq_length_filter]
  · intro hdich
    show orphanedCount g = orphanedTrackedSpec g
    unfold orphanedCount orphanedTrackedSpec
    rw [List.countP_eq_length_filter]
    congr 1
    apply List.filter_congr
    intro n hn
    rcases hdich n hn with hrepo | htr
    · simp [hrepo, trackedLabels]
    · have hne : ¬ n.label = "RepositoryNode" := by
        intro h
        rw [h] at htr
        simp [trackedLabels] at htr
      have hc : trackedLabels.contains n.label = true := by
        simpa using htr
      simp only [hne, hc, decide_eq_false hne, Bool.not_false, Bool.true_and]
      simp [hne]

/-- The Scenario-1 graph: `RepositoryNode demo —CHILD→ FileNode a.py —CHILD→
FunctionNode foo`. -/
def gDemo : Graph :=
  ⟨[⟨0, "RepositoryNode", "demo", "", "", 0⟩, ⟨1, "FileNode", "a.py", "", "", 0⟩,
    ⟨2, "FunctionNode", "foo", "", "", 3⟩], [(0, 1), (1, 2)]⟩

/-- Closed instantiation of `C6_amended` on the Scenario-1 graph, whose
labels satisfy the dichotomy hypothesis; the counts are `(2, 0)`. -/
theorem C6_amended_witness :
    validate_repository_structure gDemo "demo" =
      (connectedSpec gDemo "demo", orphanedAllSpec gDemo) ∧
    (∀ n ∈ gDemo.nodes, n.label = "RepositoryNode" ∨ n.label ∈ trackedLabels) ∧
    (validate_repository_structure gDemo "demo").2 = orphanedTrackedSpec gDemo ∧
    validate_repository_structure gDemo "demo" = (2, 0) :=
  ⟨(C6_amended gDemo "demo").1, by decide,
   (C6_amended gDemo "demo").2 (by decide), by decide⟩

/-- All scores of a result list lie in `[0, 1]`. -/
def Bounded01 (d : List Result) : Prop := ∀ x ∈ d, 0 ≤ x.score ∧ x.score ≤ 1

/-- Raw similarity scores delivered by the vector indexes lie in `[0, 1]`. -/
def VectorScoresIn01 (env : REnv) : Prop :=
  ∀ (idx : String) (n : Nat) (emb : List ℚ) (repo : Option String) (r : RRow),
    r ∈ env.vectorRows idx n emb repo → 0 ≤ r.score ∧ r.score ≤ 1

theorem semantic_score_bound (env : REnv) (query : String) (k : Nat)
    (use_code_index : Bool) (repository : Option String) (hv : VectorScoresIn01 env) :
    Bounded01 (retrieve_semantic_results env query k use_code_index repository) := by
  intro r hr
  unfold retrieve_semantic_results at hr
  split at hr
  · simp at hr
  · split at hr
    · simp at hr
    · split at hr
      · simp at hr
      · have hr1 := (mem_sortDesc _ _ _).mp (List.take_subset _ _ hr)
        rcases List.mem_flatMap.mp hr1 with ⟨idx, _hidx, hmem⟩
        split at hmem
        · simp at hmem
        · rcases List.mem_map.mp hmem with ⟨row, hrow, rfl⟩
          show 0 ≤ row.score ∧ row.score ≤ 1
          unfold semanticRowsFor at hrow
          rcases repository with _ | repo
          · exact hv _ _ _ _ _ ((mem_sortDesc _ _ _).mp hrow)
          · exact hv _ _ _ _ _ ((mem_sortDesc _ _ _).mp (List.take_subset _ _ hrow))

theorem graph_score_bound (env : REnv) (query : String) (k : Nat)
    (repository : Option String) :
    Bounded01 (retrieve_graph_based_results env query k repository) := by
  intro r hr
  unfold retrieve_graph_based_results at hr
  have hr1 := (mem_sortDesc _ _ _).mp (List.take_subset _ _ hr)
  split at hr1
  · simp at hr1
  · rcases List.mem_map.mp hr1 with ⟨n, _hn, rfl⟩
    show 0 ≤ (if (keywordsOf query).isEmpty then (0 : ℚ) else _) ∧ _
    split
    · norm_num
    · rename_i hne
      constructor
      · positivity
      · rw [div_le_one]
        · exact_mod_cast List.length_filter_le _ _
        · have hlen : (keywordsOf query).length ≠ 0 := by
            intro h0
            rw [List.isEmpty_iff, ← List.length_eq_zero] at hne
            exact hne h0
          positivity

theorem related_score_bound (env : REnv) (node_name node_type : String)
    (repository : Option String) :
    Bounded01 (retrieve_related_nodes env node_name node_type repository) := by
  intro r hr
  unfold retrieve_related_nodes at hr
  split at hr
  · simp at hr
  · rcases List.mem_append.mp hr with h | h
    · rcases List.mem_flatMap.mp h with ⟨n, _, h2⟩
      rcases List.mem_flatMap.mp h2 with ⟨cid, _, h3⟩
      rcases List.mem_map.mp h3 with ⟨c, _, rfl⟩
      show (0 : ℚ) ≤ 0.8 ∧ (0.8 : ℚ) ≤ 1
      norm_num
    · rcases List.mem_flatMap.mp h with ⟨p, _, h2⟩
      rcases List.mem_flatMap.mp h2 with ⟨tid, _, h3⟩
      rcases List.mem_map.mp h3 with ⟨n, _, rfl⟩
      show (0 : ℚ) ≤ 0.7 ∧ (0.7 : ℚ) ≤ 1
      norm_num

theorem dictUpsertA_bounded (d : List Result) (r : Result) (hd : Bounded01 d)
    (hr : 0 ≤ r.score ∧ r.score ≤ 1) : Bounded01 (dictUpsertA d r) := by
  have hr' : 0 ≤ r.score * 1.0 ∧ r.score * 1.0 ≤ 1 := by
    have h10 : (1.0 : ℚ) = 1 := by norm_num
    rw [h10, mul_one]; exact hr
  intro x hx
  unfold dictUpsertA at hx
  split at hx
  · rcases List.mem_map.mp hx with ⟨y, hy, rfl⟩
    split
    · exact hr'
    · exact hd y hy
  · rcases List.mem_append.mp hx with h | h
    · exact hd x h
    · rcases List.mem_singleton.mp h with rfl
      exact hr'

theorem boost_bounded (a b w : ℚ) (ha : 0 ≤ a) (hb : 0 ≤ b) (hw : 0 ≤ w) :
    0 ≤ min 1.0 (a + b * w) ∧ min 1.0 (a + b * w) ≤ 1 := by
  constructor
  · apply le_min
    · norm_num
    · positivity
  · have h10 : (1.0 : ℚ) = 1 := by norm_num
    rw [h10]
    exact min_le_left _ _

theorem weight_bounded (b w : ℚ) (hb0 : 0 ≤ b) (hb1 : b ≤ 1) (hw0 : 0 ≤ w)
    (hw1 : w ≤ 1) : 0 ≤ b * w ∧ b * w ≤ 1 := by
  constructor
  · positivity
  · calc b * w ≤ 1 * 1 := by
          apply mul_le_mul hb1 hw1 hw0
          norm_num
      _ = 1 := by norm_num

theorem mergeB_bounded (d : List Result) (r : Result) (hd : Bounded01 d)
    (hr : 0 ≤ r.score ∧ r.score ≤ 1) : Bounded01 (mergeB d r) := by
  intro x hx
  unfold mergeB at hx
  split at hx
  · rcases List.mem_map.mp hx with ⟨y, hy, rfl⟩
    split
    · exact boost_bounded y.score r.score 0.3 (hd y hy).1 hr.1 (by norm_num)
    · exact hd y hy
  · rcases List.mem_append.mp hx with h | h
    · exact hd x h
    · rcases List.mem_singleton.mp h with rfl
      exact weight_bounded r.score 0.6 hr.1 hr.2 (by norm_num) (by norm_num)

theorem mergeC_bounded (d : List Result) (r : Result) (hd : Bounded01 d)
    (hr : 0 ≤ r.score ∧ r.score ≤ 1) : Bounded01 (mergeC d r) := by
  intro x hx
  unfold mergeC at hx
  split at hx
  · rcases List.mem_map.mp hx with ⟨y, hy, rfl⟩
    split
    · exact boost_bounded y.score r.score 0.2 (hd y hy).1 hr.1 (by norm_num)
    · exact hd y hy
  · rcases List.mem_append.mp hx with h | h
    · exact hd x h
    · rcases List.mem_singleton.mp h with rfl
      exact weight_bounded r.score 0.4 hr.1 hr.2 (by norm_num) (by norm_num)

theorem foldl_bounded (f : List Result → Result → List Result)
    (hf : ∀ d r, Bounded01 d → (0 ≤ r.score ∧ r.score ≤ 1) → Bounded01 (f d r)) :
    ∀ (l : List Result) (d : List Result), Bounded01 d → Bounded01 l →
      Bounded01 (l.foldl f d) := by
  intro l
  induction l with
  | nil => intro d hd _; simpa using hd
  | cons r rs ih =>
    intro d hd hl
    show Bounded01 (rs.foldl f (f d r))
    refine ih (f d r) (hf d r hd (hl r (List.mem_cons_self _ _))) ?_
    intro x hx
    exact hl x (List.mem_cons_of_mem _ hx)

theorem fused_bounded (env : REnv) (query : String) (k : Nat)
    (repository : Option String) (hv : VectorScoresIn01 env) :
    Bounded01 (fusedResults env query k repository) := by
  unfold fusedResults fusedAB
  apply foldl_bounded mergeC mergeC_bounded
  · apply foldl_bounded mergeB mergeB_bounded
    · apply foldl_bounded dictUpsertA dictUpsertA_bounded
      · intro x hx; simp at hx
      · exact semantic_score_bound env query k false repository hv
    · exact graph_score_bound env query k repository
  · exact semantic_score_bound env query (k / 2) true repository hv

theorem enriched_bounded (env : REnv) (query : String) (k : Nat)
    (repository : Option String) (hv : VectorScoresIn01 env) :
    Bounded01 (enrichedResults env query k repository) := by
  intro r hr
  unfold enrichedResults at hr
  rcases List.mem_flatMap.mp hr with ⟨p, hp, hmem⟩
  have hpre : p.2 ∈ preEnrichment env query k repository := by
    have := List.enum_map_snd (preEnrichment env query k repository)
    rw [← this]
    exact List.mem_map.mpr ⟨p, hp, rfl⟩
  have hpreb : 0 ≤ p.2.score ∧ p.2.score ≤ 1 := by
    have h1 := (mem_sortDesc _ _ _).mp (List.take_subset _ _ hpre)
    exact fused_bounded env query k repository hv p.2 h1
  rcases List.mem_cons.mp hmem with rfl | h
  · exact hpreb
  · split at h
    · exact related_score_bound env p.2.name p.2.rtype repository r
        (List.take_subset _ _ h)
    · simp at h

/-- C7 claim theorem. Assuming every raw similarity score delivered by a vector index
lies in `[0, 1]`, every score in the list returned by `retrieve_top_k` in
multi-strategy mode lies in `[0, 1]` inclusive: weighted new-node scores
(`×1.0`, `×0.6`, `×0.4`), boosted hybrid scores (capped at `1.0` by `min`),
keyword scores (`matches / total ≤ 1`) and the fixed enrichment scores `0.8`
and `0.7` all stay inside the interval. -/
theorem C7_score_bound (env : REnv) (query : String) (k : Nat)
    (repository : Option String) (hv : VectorScoresIn01 env) :
    ∀ r ∈ retrieve_top_k env query k true repository,
      0 ≤ r.score ∧ r.score ≤ 1 := by
  intro r hr
  have h1 : r ∈ dedupByKey (enrichedResults env query k repository) :=
    (mem_sortDesc _ _ _).mp (List.take_subset _ _ hr)
  exact enriched_bounded env query k repository hv r (mem_dedupByKey _ r h1)

/-- Environment for the score-bound witness: every index request answers with
one row of raw score `1/2`, and the `envNbr`-style graph is empty. -/
def envHalf : REnv :=
  { graph := emptyGraph
    embed := fun _ => .ok [1]
    vectorRows := fun _ _ _ _ => [⟨"h", some "sh", some "ch", some 1, 1/2⟩]
    indexFail := fun _ => false
    sessionFail := false
    graphQueryFail := false
    relatedFail := false }

/-- Closed instantiation of `C7_score_bound` at `envHalf`. -/
theorem C7_score_bound_witness :
    VectorScoresIn01 envHalf ∧
    ∀ r ∈ retrieve_top_k envHalf "foo" 5 true none, 0 ≤ r.score ∧ r.score ≤ 1 := by
  have hv : VectorScoresIn01 envHalf := by
    intro idx n emb repo r hr
    rcases List.mem_singleton.mp hr with rfl
    norm_num
  exact ⟨hv, C7_score_bound envHalf "foo" 5 none hv⟩

/-- C8 claim theorem. Strategy B tokenizes the query into lowercased whitespace words
longer than 2 characters; the keyword query returns only tracked nodes whose
name or summary contains some keyword case-insensitively; every returned
result is scored `(matched keywords) / (total keywords)`; and the fusion step
weights a node new to the result set by 0.6 and boosts a node already present
(in particular one found by Strategy A) by `0.3 ×` its Strategy B score,
capped at 1.0, marking it `hybrid`. -/
theorem C8_strategyB :
    (∀ (query : String) (kw : String), kw ∈ keywordsOf query → kw.length > 2) ∧
    (∀ query : String, keywordsOf query =
      (pyWords (lowerStr query)).filter (fun kw => kw.length > 2)) ∧
    (∀ (g : Graph) (kws : List String) (repo : Option String) (lim : Nat)
       (n : GNode), n ∈ graphMatchRows g kws repo lim →
      trackedLabels.contains n.label = true ∧ keywordMatch kws n = true) ∧
    (∀ (env : REnv) (query : String) (k : Nat) (repo : Option String)
       (r : Result), r ∈ retrieve_graph_based_results env query k repo →
      ∃ n ∈ graphMatchRows env.graph (keywordsOf query) repo (k * 2),
        r.name = n.name ∧ r.rtype = n.label ∧ r.search_type = "graph" ∧
        keywordsOf query ≠ [] ∧
        r.score = (((keywordsOf query).filter (fun kw =>
            strContains (lowerStr n.name) kw ||
            strContains (lowerStr n.summary) kw)).length : ℚ) /
          ((keywordsOf query).length : ℚ)) ∧
    (∀ (d : List Result) (r : Result), ¬(∃ x ∈ d, keyOf x = keyOf r) →
      mergeB d r = d ++ [{ r with score := r.score * 0.6 }]) ∧
    (∀ (d : List Result) (r : Result), (∃ x ∈ d, keyOf x = keyOf r) →
      mergeB d r = d.map (fun x => if keyOf x = keyOf r then
        { x with
          score := min 1.0 (x.score + r.score * 0.3)
          search_type := "hybrid" }
      else x)) := by
  refine ⟨?_, fun _ => rfl, ?_, ?_, mergeB_new, mergeB_present⟩
  · intro query kw hkw
    have := List.of_mem_filter hkw
    simpa using this
  · intro g kws repo lim n hn
    have hmem := List.take_subset _ _ hn
    have hp := List.of_mem_filter hmem
    simp only [Bool.and_eq_true] at hp
    exact ⟨hp.1.1, hp.2⟩
  · intro env query k repo r hr
    unfold retrieve_graph_based_results at hr
    have hr1 := (mem_sortDesc _ _ _).mp (List.take_subset _ _ hr)
    split at hr1
    · simp at hr1
    · rcases List.mem_map.mp hr1 with ⟨n, hn, rfl⟩
      refine ⟨n, hn, rfl, rfl, rfl, ?_, ?_⟩
      · intro hempty
        have hmem := List.take_subset _ _ hn
        have hp := List.of_mem_filter hmem
        simp only [Bool.and_eq_true] at hp
        have hkm := hp.2
        rw [hempty] at hkm
        simp [keywordMatch] at hkm
      · show (if (keywordsOf query).isEmpty then (0 : ℚ) else _) = _
        split
        · rename_i hemp
          exfalso
          have hmem := List.take_subset _ _ hn
          have hp := List.of_mem_filter hmem
          simp only [Bool.and_eq_true] at hp
          have hkm := hp.2
          rw [List.isEmpty_iff.mp hemp] at hkm
          simp [keywordMatch] at hkm
        · rfl

/-- A `FunctionNode` named `foo` whose summary mentions `foo`. -/
def fooNode : GNode := ⟨0, "FunctionNode", "foo", "computes foo", "def foo(): pass", 3⟩

/-- Environment whose graph holds only `fooNode` and whose semantic services
contribute nothing, isolating Strategy B. -/
def envKw : REnv :=
  { graph := ⟨[fooNode], []⟩
    embed := fun _ => .error "down"
    vectorRows := fun _ _ _ _ => []
    indexFail := fun _ => false
    sessionFail := false
    graphQueryFail := false
    relatedFail := false }

/-- The Strategy B result for query `foo` against `envKw`: 1 of 1 keywords
match, so the raw keyword score is `1`. -/
def rFoo : Result := ⟨"FunctionNode", "foo", "computes foo", "def foo(): pass", 3, 1, "graph", none⟩

/-- Closed instantiation of `C8_strategyB` on the query `"foo x"` / `"foo"`
and the `envKw` graph. -/
theorem C8_strategyB_witness :
    ("foo" ∈ keywordsOf "foo x" ∧ "foo".length > 2) ∧
    (fooNode ∈ graphMatchRows envKw.graph ["foo"] none 10 ∧
      trackedLabels.contains fooNode.label = true ∧
      keywordMatch ["foo"] fooNode = true) ∧
    (rFoo ∈ retrieve_graph_based_results envKw "foo" 5 none ∧
      ∃ n ∈ graphMatchRows envKw.graph (keywordsOf "foo") none (5 * 2),
        rFoo.name = n.name ∧ rFoo.rtype = n.label ∧ rFoo.search_type = "graph" ∧
        keywordsOf "foo" ≠ [] ∧
        rFoo.score = (((keywordsOf "foo").filter (fun kw =>
            strContains (lowerStr n.name) kw ||
            strContains (lowerStr n.summary) kw)).length : ℚ) /
          ((keywordsOf "foo").length : ℚ)) ∧
    (¬(∃ x ∈ ([] : List Result), keyOf x = keyOf rFoo) ∧
      mergeB [] rFoo = [] ++ [{ rFoo with score := rFoo.score * 0.6 }]) ∧
    ((∃ x ∈ [rFoo], keyOf x = keyOf rFoo) ∧
      mergeB [rFoo] rFoo = [rFoo].map (fun x => if keyOf x = keyOf rFoo then
        { x with
          score := min 1.0 (x.score + rFoo.score * 0.3)
          search_type := "hybrid" }
      else x)) := by
  have hmem : rFoo ∈ retrieve_graph_based_results envKw "foo" 5 none := by
    with_unfolding_all decide
  refine ⟨⟨by decide, C8_strategyB.1 "foo x" "foo" (by decide)⟩, ?_, ?_, ?_, ?_⟩
  · refine ⟨by decide, C8_strategyB.2.2.1 envKw.graph ["foo"] none 10 fooNode (by decide)⟩
  · exact ⟨hmem, C8_strategyB.2.2.2.1 envKw "foo" 5 none rFoo hmem⟩
  · exact ⟨by simp, C8_strategyB.2.2.2.2.1 [] rFoo (by simp)⟩
  · exact ⟨⟨rFoo, by simp⟩, C8_strategyB.2.2.2.2.2 [rFoo] rFoo ⟨rFoo, by simp⟩⟩

end CodeChat
